import Mathlib

/-!
Verification of the Planner scheduling engine.

A shallow embedding of the scheduling core of the Planner repository:

* `calculateProductDurationOnLine`     (src/contexts/AppDataContext.tsx, lines 433-446)
* `optimizeDaySchedules`               (src/contexts/AppDataContext.tsx, lines 448-617,
                                        `optimizeDaySchedulesOp`)
* the run-status clock                 (src/contexts/AppDataContext.tsx, lines 230-260)
* `checkDropValidity`                  (src/components/gantt/GanttChart.tsx, lines 88-165)
* the drag-start movability guard      (src/components/gantt/GanttChart.tsx, lines 168-177
                                        and 354-356)

Modelling conventions, shared by all definitions below:

* Instants are integers counting **minutes from midnight of the target day**.
  The source stores ISO strings and compares epoch milliseconds (`getTime()`);
  every time the engine manipulates is a whole minute, so minutes are a faithful
  unit.  An instant `t` lies on the target calendar day iff `0 ≤ t < 1440`
  (`onTargetDay` below); this matches the source's
  `date.getDate() === targetDayStart.getDate()` comparisons, and
  `t.emod 1440` is exactly the source's `getHours() * 60 + getMinutes()`
  (also for instants before midnight, where JavaScript reports the previous
  day's hours).
* Operating-hour entries store the start/end time of day already converted to
  minutes (the source's `timeToMinutes` applied to the stored `"HH:MM"` text).
* JavaScript's `Array.prototype.sort` is stable (ES2019); it is modelled by the
  stable `List.insertionSort`, which produces the same list for the
  total-preorder comparators used by the source.
* `[...new Set(xs)]` keeps first occurrences; it is modelled by `dedupFirst`.
* The source's unbounded slot-search `while` loop is modelled with explicit
  fuel `slots.length + 1`.  Each collision moves the cursor to the colliding
  slot's end, after which that slot can never collide again, so at most
  `slots.length` collisions occur before an iteration that accepts or gives up:
  the fuel is never exhausted on the loop the source runs.
-/

/-- Product classification (`ProductClassification`): `'Top Seller'` or `'Normal'`. -/
inductive ProductClassification where
  | topSeller
  | normal
deriving DecidableEq, Repr

/-- Run lifecycle status (`ScheduleStatus`): `'Pendente'`, `'Em Progresso'`,
`'Concluído'`, `'Cancelado'`. -/
inductive ScheduleStatus where
  | pendente
  | emProgresso
  | concluido
  | cancelado
deriving DecidableEq, Repr

/-- One entry of a product's processing profile
(`{ equipmentId, timePerUnitMinutes }`). -/
structure ProcessingTime where
  equipmentId : String
  timePerUnitMinutes : Int
deriving DecidableEq, Repr

/-- A product, restricted to the fields the scheduling engine reads. -/
structure Product where
  id : String
  classification : ProductClassification
  processingTimes : List ProcessingTime
deriving DecidableEq, Repr

/-- One weekday of a line's operating calendar (`OperatingDayTime`), with the
times of day already converted to minutes from midnight. -/
structure OperatingDayTime where
  dayOfWeek : Nat
  startMinutes : Int
  endMinutes : Int
  isActive : Bool
deriving DecidableEq, Repr

/-- A production line, restricted to the fields the scheduling engine reads. -/
structure ProductionLine where
  id : String
  equipmentIds : List String
  operatingHours : List OperatingDayTime
deriving DecidableEq, Repr

/-- A scheduled production run (`ScheduledProductionRun`); `startTime` and
`endTime` are instants in minutes from midnight of the target day. -/
structure ScheduledRun where
  id : String
  productId : String
  lineId : String
  startTime : Int
  endTime : Int
  quantity : Int
  status : ScheduleStatus
  notes : String
deriving DecidableEq, Repr

/-- Predicate that `t` lies on the target calendar day: the source's
`date.getDate() === targetDayStart.getDate()` for instants measured from the
target day's midnight. -/
def onTargetDay (t : Int) : Prop := 0 ≤ t ∧ t < 1440

instance (t : Int) : Decidable (onTargetDay t) := by
  unfold onTargetDay; infer_instance

/-- Source `getProductById`: first product with the given id (AppDataContext.tsx, line 262). -/
def getProductById (products : List Product) (pid : String) : Option Product :=
  products.find? (fun p => p.id == pid)

/-- Source `getProductionLineById` (AppDataContext.tsx, line 263). -/
def getProductionLineById (lines : List ProductionLine) (lid : String) :
    Option ProductionLine :=
  lines.find? (fun l => l.id == lid)

/-- Source `calculateProductDurationOnLine` (AppDataContext.tsx, lines 433-446): for
each equipment id in the line's sequence, add the product's per-unit minutes
for it when present; multiply the sum by the quantity.  Returns 0 when the
quantity is not positive, the product's profile is empty, or the line has no
equipment. -/
def calculateProductDurationOnLine (product : Product) (line : ProductionLine)
    (quantity : Int) : Int :=
  if quantity ≤ 0 then 0
  else if product.processingTimes.isEmpty then 0
  else if line.equipmentIds.isEmpty then 0
  else
    (line.equipmentIds.foldl
      (fun acc eqIdInLine =>
        match product.processingTimes.find? (fun pt => pt.equipmentId == eqIdInLine) with
        | some productTimeForEq => acc + productTimeForEq.timePerUnitMinutes
        | none => acc)
      0) * quantity

/-- Modelled from the spec (§4.2): half-open interval overlap,
`candidateStart < existingEnd && candidateEnd > existingStart`. -/
def overlaps (candidateStart candidateEnd existingStart existingEnd : Int) : Bool :=
  decide (candidateStart < existingEnd) && decide (candidateEnd > existingStart)

/-- The optimizer's collision test (AppDataContext.tsx, line 568):
`proposedStartTime.getTime() < existingEnd && proposedEndTime.getTime() > existingStart`. -/
def optimizerCollision (proposedStart proposedEnd existingStart existingEnd : Int) : Bool :=
  decide (proposedStart < existingEnd) && decide (proposedEnd > existingStart)

/-- The validator's collision test (GanttChart.tsx, line 155):
`newStartTime < existingEnd && newEndTime > existingStart`. -/
def validatorCollision (newStart newEnd existingStart existingEnd : Int) : Bool :=
  decide (newStart < existingEnd) && decide (newEnd > existingStart)

/-- Symmetric run-interval overlap, used to state the invariants. -/
def overlapsRun (a b : ScheduledRun) : Prop :=
  a.startTime < b.endTime ∧ b.startTime < a.endTime

/-! ## Run status clock (AppDataContext.tsx, lines 230-260) -/

/-- The per-run body of the status-clock tick: the status the run would move to
(lines 238-244). -/
def tickNewStatus (currentTime : Int) (schedule : ScheduledRun) : ScheduleStatus :=
  if schedule.status = .pendente ∧ schedule.startTime ≤ currentTime ∧
      currentTime < schedule.endTime then
    .emProgresso
  else if schedule.status = .emProgresso ∧ schedule.endTime ≤ currentTime then
    .concluido
  else
    schedule.status

/-- The update the tick pushes for one run, if any (lines 246-248): a copy with
the new status, pushed only when the run is not terminal and the status
actually changes. -/
def tickRunUpdate (currentTime : Int) (schedule : ScheduledRun) : Option ScheduledRun :=
  let newStatus := tickNewStatus currentTime schedule
  if schedule.status ≠ .cancelado ∧ schedule.status ≠ .concluido ∧
      newStatus ≠ schedule.status then
    some { schedule with status := newStatus }
  else
    none

/-- One tick of the status clock: the list `schedulesToUpdate` it builds
(lines 233-249), in snapshot order. -/
def statusClockUpdates (currentTime : Int) (schedules : List ScheduledRun) :
    List ScheduledRun :=
  schedules.filterMap (tickRunUpdate currentTime)

/-- Modelled from the spec (claim C8's transition table): Pending with
`start ≤ now < end` becomes InProgress; InProgress with `end ≤ now` becomes
Completed; every other run is untouched. -/
def specTickTransition (currentTime : Int) (schedule : ScheduledRun) :
    Option ScheduledRun :=
  if schedule.status = .pendente ∧ schedule.startTime ≤ currentTime ∧
      currentTime < schedule.endTime then
    some { schedule with status := .emProgresso }
  else if schedule.status = .emProgresso ∧ schedule.endTime ≤ currentTime then
    some { schedule with status := .concluido }
  else
    none

/-! ## Interactive placement validator (GanttChart.tsx, lines 88-165) -/

/-- The structured outcome of `checkDropValidity`; each rejection constructor
stands for one of the `{ valid: false, message: ... }` returns of the source,
in source order. -/
inductive MoveVerdict where
  /-- Rejection "Produto ou linha não encontrado." (line 95). -/
  | notFound
  /-- Rejection "... não pode ser movido.": the dragged run is not Pendente (line 98). -/
  | statusNotPendente
  /-- Rejection "Linha ... não opera neste dia." (line 107). -/
  | lineInactive
  /-- Rejection "Fora do horário de operação da linha ..." (line 120). -/
  | outsideOperatingWindow
  /-- Rejection "Não é possível mover para um horário anterior ao atual ..." (line 129). -/
  | beforeCurrentTime
  /-- Rejection "Conflito com Top Seller: ..." (line 157). -/
  | conflictTopSeller
  /-- Rejection "Conflito com produto Normal: ..." (line 161). -/
  | conflictNormal
  /-- Acceptance, the source returning valid true with a null message (line 164). -/
  | valid
deriving DecidableEq, Repr

/-- The conflict loop of `checkDropValidity` (lines 148-163): walk the existing
runs in order; skip a run whose product cannot be resolved; reject on the first
half-open overlap, naming the existing product's classification. -/
def conflictScan (products : List Product) (newStart newEnd : Int) :
    List ScheduledRun → MoveVerdict
  | [] => .valid
  | existingSchedule :: rest =>
    match getProductById products existingSchedule.productId with
    | none => conflictScan products newStart newEnd rest
    | some existingProduct =>
      if validatorCollision newStart newEnd
          existingSchedule.startTime existingSchedule.endTime then
        if existingProduct.classification = .topSeller then .conflictTopSeller
        else .conflictNormal
      else conflictScan products newStart newEnd rest

/-- Source `checkDropValidity` (GanttChart.tsx, lines 88-165).  `dayOfWeek` is the
chart day's weekday, `isChartForToday` whether that day is the current calendar
day, and `currentTime` the wall clock truncated to the minute (the source's
`comparableCurrentTime`); all instants are minutes from the chart day's
midnight. -/
def checkDropValidity (products : List Product) (lines : List ProductionLine)
    (allSchedules : List ScheduledRun) (dayOfWeek : Nat) (isChartForToday : Bool)
    (currentTime : Int) (item : ScheduledRun) (targetLineId : String)
    (newStartTime : Int) : MoveVerdict :=
  match getProductById products item.productId,
        getProductionLineById lines targetLineId with
  | some _, some targetLine =>
    if item.status ≠ .pendente then .statusNotPendente
    else
      let durationMinutes := item.endTime - item.startTime
      let newEndTime := newStartTime + durationMinutes
      match targetLine.operatingHours.find? (fun oh => oh.dayOfWeek == dayOfWeek) with
      | none => .lineInactive
      | some lineOpHours =>
        if ¬ lineOpHours.isActive then .lineInactive
        else
          let opStartMinutes := lineOpHours.startMinutes
          let opEndMinutes := lineOpHours.endMinutes
          let newItemStartMinutes := newStartTime % 1440
          let newItemEndMinutes := newEndTime % 1440
          if (¬ onTargetDay newStartTime ∨ newItemStartMinutes < opStartMinutes ∨
              ¬ onTargetDay newEndTime ∨ newItemEndMinutes > opEndMinutes) ∧
             ¬ (onTargetDay newEndTime ∧ newItemEndMinutes = opEndMinutes ∧
                newItemStartMinutes ≥ opStartMinutes) then
            .outsideOperatingWindow
          else if isChartForToday ∧ newStartTime < currentTime then
            .beforeCurrentTime
          else
            conflictScan products newStartTime newEndTime
              (allSchedules.filter (fun s =>
                s.lineId == targetLineId && s.id != item.id &&
                decide (onTargetDay s.startTime)))
  | _, _ => .notFound

/-- The drag-start movability guard (GanttChart.tsx, lines 171-177 and the
`draggable`/`isDraggable` computation at lines 354-356): a drag begins only
when the run's product is not a Top Seller and its status is `'Pendente'`. -/
def isDraggable (products : List Product) (scheduleItem : ScheduledRun) : Bool :=
  !(decide ((getProductById products scheduleItem.productId).map
      (fun p => p.classification) = some .topSeller)) &&
  decide (scheduleItem.status = .pendente)

/-! ## Day optimizer (AppDataContext.tsx, lines 448-617, `optimizeDaySchedulesOp`) -/

/-- Sort runs ascending by start time — the source's
`.sort((a, b) => new Date(a.startTime).getTime() - new Date(b.startTime).getTime())`
(lines 501, 504, 580), modelled by the stable `insertionSort`. -/
def sortByStartTime (runs : List ScheduledRun) : List ScheduledRun :=
  List.insertionSort (fun a b => a.startTime ≤ b.startTime) runs

/-- Models `[...new Set(xs)]` (line 469): the list with later duplicates removed,
keeping first occurrences in order. -/
def dedupFirst (xs : List String) : List String :=
  xs.foldl (fun acc x => if x ∈ acc then acc else acc ++ [x]) []

/-- The per-line partition of a day's runs (lines 484-499): `Top Seller` runs
and non-`Pendente` `Normal` runs are fixed (the latter counted unoptimized); a
`Normal`/`Pendente` run is a candidate for relocation; anything else (an
unresolvable product) is kept fixed and counted unoptimized.  Returns
`(fixed, movable, unoptimizedCount)` with both lists in input order. -/
def partitionRuns (products : List Product) :
    List ScheduledRun → List ScheduledRun × List ScheduledRun × Nat
  | [] => ([], [], 0)
  | schedule :: rest =>
    let r := partitionRuns products rest
    let cls := (getProductById products schedule.productId).map
      (fun p => p.classification)
    if cls = some .topSeller ∨ (cls = some .normal ∧ schedule.status ≠ .pendente) then
      (schedule :: r.1, r.2.1, if cls = some .normal then r.2.2 + 1 else r.2.2)
    else if cls = some .normal ∧ schedule.status = .pendente then
      (r.1, schedule :: r.2.1, r.2.2)
    else
      (schedule :: r.1, r.2.1, r.2.2 + 1)

/-- One iteration step's collision lookup (lines 565-573): the first occupied
slot the proposed interval collides with, scanning in list order. -/
def firstCollision (slots : List ScheduledRun) (proposedStart proposedEnd : Int) :
    Option ScheduledRun :=
  slots.find? (fun existingItem =>
    optimizerCollision proposedStart proposedEnd
      existingItem.startTime existingItem.endTime)

/-- The slot-search `while` loop (lines 552-585), with explicit fuel (see the
header note: `slots.length + 1` fuel is never exhausted).  Returns the accepted
start instant, or `none` when the run cannot be placed.  On a collision the
cursor advances to the later of the colliding slot's end and the effective
search start (line 570). -/
def findSlotLoop (slots : List ScheduledRun) (effectiveStart lineOpEndMinutes
    durationMinutes : Int) : Nat → Int → Option Int
  | 0, _ => none
  | fuel + 1, attemptStart =>
    if ¬ onTargetDay attemptStart ∨ attemptStart % 1440 ≥ lineOpEndMinutes then none
    else
      let proposedEnd := attemptStart + durationMinutes
      if (¬ onTargetDay proposedEnd ∨ proposedEnd % 1440 > lineOpEndMinutes) ∧
         ¬ (onTargetDay proposedEnd ∧ proposedEnd % 1440 = lineOpEndMinutes) then
        none
      else
        match firstCollision slots attemptStart proposedEnd with
        | some existingItem =>
          findSlotLoop slots effectiveStart lineOpEndMinutes durationMinutes fuel
            (max existingItem.endTime effectiveStart)
        | none => some attemptStart

/-- The slot search for one movable run, started at the effective search
origin. -/
def findSlot (slots : List ScheduledRun) (effectiveStart lineOpEndMinutes
    durationMinutes : Int) : Option Int :=
  findSlotLoop slots effectiveStart lineOpEndMinutes durationMinutes
    (slots.length + 1) effectiveStart

/-- Accumulator state for one line's optimization pass: the occupied slots
(`currentAvailableSlots`), the placements pushed so far (`schedulesToUpdate`,
restricted to this line), and the two counters. -/
structure LineAcc where
  slots : List ScheduledRun
  placements : List ScheduledRun
  optimized : Nat
  unoptimized : Nat
deriving Repr

/-- Processing of one movable run (lines 506-589): resolve the product, compute
the duration, resolve the day's operating window, compute the effective search
origin (the window start, moved up to the current minute when optimizing
today), and run the slot search; on success the run is re-timed and added to
both the occupied slots (re-sorted, line 580) and the placements. -/
def placeRun (products : List Product) (line : ProductionLine)
    (targetWeekday : Nat) (isToday : Bool) (nowMinutes : Int)
    (acc : LineAcc) (normalSchedule : ScheduledRun) : LineAcc :=
  match getProductById products normalSchedule.productId with
  | none => { acc with unoptimized := acc.unoptimized + 1 }
  | some product =>
    let durationMinutes := calculateProductDurationOnLine product line
      normalSchedule.quantity
    if durationMinutes ≤ 0 then { acc with unoptimized := acc.unoptimized + 1 }
    else
      match line.operatingHours.find? (fun oh => oh.dayOfWeek == targetWeekday) with
      | none => { acc with unoptimized := acc.unoptimized + 1 }
      | some lineOpHoursForDay =>
        if ¬ lineOpHoursForDay.isActive then
          { acc with unoptimized := acc.unoptimized + 1 }
        else
          let lineOpStartMinutes := lineOpHoursForDay.startMinutes
          let lineOpEndMinutes := lineOpHoursForDay.endMinutes
          let effectiveStart :=
            if isToday ∧ nowMinutes > lineOpStartMinutes then nowMinutes
            else lineOpStartMinutes
          if effectiveStart % 1440 ≥ lineOpEndMinutes then
            { acc with unoptimized := acc.unoptimized + 1 }
          else
            match findSlot acc.slots effectiveStart lineOpEndMinutes
                durationMinutes with
            | none => { acc with unoptimized := acc.unoptimized + 1 }
            | some proposedStart =>
              let updatedNormalSchedule :=
                { normalSchedule with
                  startTime := proposedStart,
                  endTime := proposedStart + durationMinutes }
              { slots := sortByStartTime (acc.slots ++ [updatedNormalSchedule]),
                placements := acc.placements ++ [updatedNormalSchedule],
                optimized := acc.optimized + 1,
                unoptimized := acc.unoptimized }

/-- One line's full pass (lines 480-591): partition the line's same-day runs,
seed the occupied slots with the fixed runs sorted by start, and fold the
movable runs, sorted by their existing start, through `placeRun`. -/
def processLine (products : List Product) (line : ProductionLine)
    (schedulesForThisLineToday : List ScheduledRun) (targetWeekday : Nat)
    (isToday : Bool) (nowMinutes : Int) : LineAcc :=
  let r := partitionRuns products schedulesForThisLineToday
  (sortByStartTime r.2.1).foldl
    (placeRun products line targetWeekday isToday nowMinutes)
    { slots := sortByStartTime r.1, placements := [], optimized := 0,
      unoptimized := r.2.2 }

/-- The aggregate result of `optimizeDaySchedulesOp`: the placements it would
commit (`schedulesToUpdate`) and the two counters it returns. -/
structure OptimizeResult where
  placements : List ScheduledRun
  optimizedCount : Nat
  unoptimizedCount : Nat
deriving Repr

/-- One iteration of the optimizer's per-line loop (lines 471-591): resolve the
line id; an unresolvable line contributes its would-be movable runs to the
unoptimized count (lines 472-478), a resolved line is processed by
`processLine` and its results aggregated. -/
def optimizeLineStep (products : List Product)
    (productionLines : List ProductionLine)
    (schedulesStartingOnTargetDay : List ScheduledRun) (targetWeekday : Nat)
    (isToday : Bool) (nowMinutes : Int) (res : OptimizeResult)
    (lineId : String) : OptimizeResult :=
  match getProductionLineById productionLines lineId with
  | none =>
    let missed := (schedulesStartingOnTargetDay.filter (fun s =>
      s.lineId == lineId &&
      decide ((getProductById products s.productId).map
        (fun p => p.classification) = some .normal) &&
      decide (s.status = .pendente))).length
    { res with unoptimizedCount := res.unoptimizedCount + missed }
  | some line =>
    let acc := processLine products line
      (schedulesStartingOnTargetDay.filter (fun s => s.lineId == lineId))
      targetWeekday isToday nowMinutes
    { placements := res.placements ++ acc.placements,
      optimizedCount := res.optimizedCount + acc.optimized,
      unoptimizedCount := res.unoptimizedCount + acc.unoptimized }

/-- Source `optimizeDaySchedulesOp` (lines 448-617): filter the snapshot to runs
starting on the target day, and fold the optimizer's per-line step over the
touched line ids in first-occurrence order.  `targetWeekday` is the target
day's `getDay()`, `isToday` whether the target day is the current calendar
day, and `nowMinutes` the current wall clock truncated to the minute. -/
def optimizeDaySchedules (products : List Product)
    (productionLines : List ProductionLine) (schedules : List ScheduledRun)
    (targetWeekday : Nat) (isToday : Bool) (nowMinutes : Int) : OptimizeResult :=
  let schedulesStartingOnTargetDay :=
    schedules.filter (fun s => decide (onTargetDay s.startTime))
  let lineIdsToProcess := dedupFirst (schedulesStartingOnTargetDay.map
    (fun s => s.lineId))
  lineIdsToProcess.foldl
    (optimizeLineStep products productionLines schedulesStartingOnTargetDay
      targetWeekday isToday nowMinutes)
    ⟨[], 0, 0⟩

/-- A run the optimizer must never relocate (spec §3, derived lock rule, as the
partition at lines 484-499 realizes it): every run except a resolvable `Normal`
product with status `Pendente`. -/
def isLocked (products : List Product) (s : ScheduledRun) : Prop :=
  ¬ ((getProductById products s.productId).map (fun p => p.classification) =
      some .normal ∧ s.status = .pendente)

instance (products : List Product) (s : ScheduledRun) :
    Decidable (isLocked products s) := by
  unfold isLocked; infer_instance

/-! ## Helper lemmas -/

lemma durationFold_eq (pts : List ProcessingTime) (l : List String) (init : Int) :
    l.foldl (fun acc eqIdInLine =>
        match pts.find? (fun pt => pt.equipmentId == eqIdInLine) with
        | some productTimeForEq => acc + productTimeForEq.timePerUnitMinutes
        | none => acc) init
      = init + (l.map (fun e =>
          ((pts.find? (fun pt => pt.equipmentId == e)).map
            (fun pt => pt.timePerUnitMinutes)).getD 0)).sum := by
  induction l generalizing init with
  | nil => simp
  | cons x xs ih =>
    simp only [List.foldl_cons, List.map_cons, List.sum_cons]
    cases h : pts.find? (fun pt => pt.equipmentId == x) with
    | none => simp [h, ih]
    | some pt => simp [h, ih]; ring

lemma tickRunUpdate_eq_spec (currentTime : Int) (s : ScheduledRun) :
    tickRunUpdate currentTime s = specTickTransition currentTime s := by
  cases hst : s.status <;>
    simp [tickRunUpdate, tickNewStatus, specTickTransition, hst] <;>
    split_ifs <;> simp_all

/-! ## Claims C4, C5, C8, C10 -/

/-- C4 (amended): the duration calculator returns the sum, over the line's
equipment ids, of the product's per-unit minutes for that id (0 if absent)
times the quantity; it returns 0 when the quantity is not positive, the
product's profile is empty, or the line has no equipment; and the result is
non-negative whenever every per-unit minute in the product's profile is
non-negative. -/
theorem claim_C4_amended (product : Product) (line : ProductionLine) (quantity : Int) :
    (quantity ≤ 0 → calculateProductDurationOnLine product line quantity = 0) ∧
    (product.processingTimes = [] →
      calculateProductDurationOnLine product line quantity = 0) ∧
    (line.equipmentIds = [] →
      calculateProductDurationOnLine product line quantity = 0) ∧
    (0 < quantity →
      calculateProductDurationOnLine product line quantity =
        (line.equipmentIds.map (fun e =>
          ((product.processingTimes.find? (fun pt => pt.equipmentId == e)).map
            (fun pt => pt.timePerUnitMinutes)).getD 0)).sum * quantity) ∧
    ((∀ pt ∈ product.processingTimes, 0 ≤ pt.timePerUnitMinutes) →
      0 ≤ calculateProductDurationOnLine product line quantity) := by
  have hsum : ∀ _h : ∀ pt ∈ product.processingTimes, 0 ≤ pt.timePerUnitMinutes,
      0 ≤ (line.equipmentIds.map (fun e =>
        ((product.processingTimes.find? (fun pt => pt.equipmentId == e)).map
          (fun pt => pt.timePerUnitMinutes)).getD 0)).sum := by
    intro h
    apply List.sum_nonneg
    intro x hx
    obtain ⟨e, _, rfl⟩ := List.mem_map.mp hx
    cases hf : product.processingTimes.find? (fun pt => pt.equipmentId == e) with
    | none => simp
    | some pt =>
      simpa using h pt (List.mem_of_find?_eq_some hf)
  refine ⟨?_, ?_, ?_, ?_, ?_⟩
  · intro h; simp [calculateProductDurationOnLine, h]
  · intro h; simp [calculateProductDurationOnLine, h]
  · intro h
    simp only [calculateProductDurationOnLine, h]
    split_ifs <;> simp
  · intro h
    have hq : ¬ quantity ≤ 0 := not_le.mpr h
    simp only [calculateProductDurationOnLine, hq, if_false]
    split_ifs with h1 h2
    · rw [List.isEmpty_iff] at h1; simp [h1]
    · rw [List.isEmpty_iff] at h2; simp [h2]
    · rw [durationFold_eq]; ring_nf
  · intro h
    simp only [calculateProductDurationOnLine]
    split_ifs with h1 h2 h3
    · exact le_refl 0
    · exact le_refl 0
    · exact le_refl 0
    · rw [durationFold_eq, zero_add]
      exact mul_nonneg (hsum h) (le_of_not_le h1)

/-- C4 witness: the amended theorem at a concrete product, line and quantity. -/
theorem claim_C4_witness :
    calculateProductDurationOnLine ⟨"p", .normal, [⟨"e1", 10⟩, ⟨"e2", 20⟩]⟩
        ⟨"l", ["e1", "e2", "e3"], []⟩ 3 =
      ([10, 20, 0] : List Int).sum * 3 ∧
    0 ≤ calculateProductDurationOnLine ⟨"p", .normal, [⟨"e1", 10⟩, ⟨"e2", 20⟩]⟩
        ⟨"l", ["e1", "e2", "e3"], []⟩ 3 := by
  have h := claim_C4_amended ⟨"p", .normal, [⟨"e1", 10⟩, ⟨"e2", 20⟩]⟩
    ⟨"l", ["e1", "e2", "e3"], []⟩ 3
  refine ⟨?_, h.2.2.2.2 (by decide)⟩
  rw [h.2.2.2.1 (by decide)]
  decide

/-- C4 counterexample: the claim's unconditional "result is always
non-negative" fails — a profile entry with negative per-unit minutes yields a
negative duration. -/
theorem claim_C4_counterexample :
    calculateProductDurationOnLine ⟨"p", .normal, [⟨"e1", -5⟩]⟩
      ⟨"l", ["e1"], []⟩ 1 < 0 := by decide

/-- C5: the optimizer's collision test and the validator's collision test both
equal the half-open overlap rule of §4.2, and intervals whose boundaries merely
touch (candidate ending where the existing starts, or starting where it ends)
are never treated as conflicting. -/
theorem claim_C5_confirmed (cs ce es ee : Int) :
    optimizerCollision cs ce es ee = overlaps cs ce es ee ∧
    validatorCollision cs ce es ee = overlaps cs ce es ee ∧
    (overlaps cs ce es ee = true ↔ cs < ee ∧ ce > es) ∧
    overlaps cs es es ee = false ∧
    overlaps ee ce es ee = false := by
  refine ⟨rfl, rfl, ?_, ?_, ?_⟩ <;> simp [overlaps]

/-- C8: one tick of the status clock produces exactly the updates of the
spec's transition table: Pending with `start ≤ now < end` becomes InProgress,
InProgress with `end ≤ now` becomes Completed, and no other run is touched. -/
theorem claim_C8_confirmed (currentTime : Int) (schedules : List ScheduledRun) :
    statusClockUpdates currentTime schedules =
      schedules.filterMap (specTickTransition currentTime) := by
  unfold statusClockUpdates
  congr 1
  funext s
  exact tickRunUpdate_eq_spec currentTime s

/-- C10: a Pending run whose end is at or before the clock's current time is
never transitioned (in particular never directly to Completed): the tick
pushes no update for it, at that time and at every later one. -/
theorem claim_C10_confirmed (currentTime : Int) (s : ScheduledRun)
    (hst : s.status = .pendente) (hend : s.endTime ≤ currentTime) :
    tickNewStatus currentTime s = .pendente ∧
    tickRunUpdate currentTime s = none := by
  have hnew : tickNewStatus currentTime s = .pendente := by
    simp only [tickNewStatus, hst]
    split_ifs with h1 h2
    · exact absurd h1.2.2 (not_lt.mpr hend)
    · exact absurd h2.1 (by simp [hst])
    · rfl
  refine ⟨hnew, ?_⟩
  simp [tickRunUpdate, hnew, hst]

/-- C10 witness: a Pending run over the interval `[480, 540)` is untouched by
a tick at minute 600. -/
theorem claim_C10_witness :
    tickRunUpdate 600 ⟨"r", "p", "l", 480, 540, 1, .pendente, ""⟩ = none :=
  (claim_C10_confirmed 600 ⟨"r", "p", "l", 480, 540, 1, .pendente, ""⟩
    rfl (by decide)).2

lemma conflictScan_valid_iff (products : List Product) (newStart newEnd : Int)
    (l : List ScheduledRun) :
    conflictScan products newStart newEnd l = .valid ↔
      ∀ e ∈ l, (getProductById products e.productId).isSome = true →
        ¬ (newStart < e.endTime ∧ newEnd > e.startTime) := by
  induction l with
  | nil => simp [conflictScan]
  | cons e rest ih =>
    rw [List.forall_mem_cons]
    cases hf : getProductById products e.productId with
    | none =>
      simp only [conflictScan, hf]
      rw [ih]
      simp [hf]
    | some p =>
      by_cases hc : validatorCollision newStart newEnd e.startTime e.endTime = true
      · have hcol : newStart < e.endTime ∧ newEnd > e.startTime := by
          simpa [validatorCollision] using hc
        simp only [conflictScan, hf, hc, if_true]
        constructor
        · intro hv
          exact absurd hv (by split_ifs <;> simp)
        · intro h
          exact absurd hcol (h.1 (by simp [hf]))
      · have hcol : ¬ (newStart < e.endTime ∧ newEnd > e.startTime) := by
          simpa [validatorCollision] using hc
        simp only [conflictScan, hf, if_neg hc]
        rw [ih]
        simp [hcol, hf]

lemma conflictScan_topSeller (products : List Product) (newStart newEnd : Int) :
    ∀ l : List ScheduledRun,
      conflictScan products newStart newEnd l = .conflictTopSeller →
      ∃ e ∈ l, ∃ p, getProductById products e.productId = some p ∧
        p.classification = .topSeller ∧
        newStart < e.endTime ∧ newEnd > e.startTime
  | [], h => by simp [conflictScan] at h
  | e :: rest, h => by
    revert h
    simp only [conflictScan]
    cases hf : getProductById products e.productId with
    | none =>
      intro h
      obtain ⟨e', he', hrest⟩ := conflictScan_topSeller products newStart newEnd rest h
      exact ⟨e', List.mem_cons_of_mem _ he', hrest⟩
    | some p =>
      by_cases hc : validatorCollision newStart newEnd e.startTime e.endTime = true
      · have hcol : newStart < e.endTime ∧ newEnd > e.startTime := by
          simpa [validatorCollision] using hc
        simp only [hc, if_true]
        intro h
        refine ⟨e, List.mem_cons_self _ _, p, hf, ?_, hcol⟩
        by_contra hcls
        simp [hcls] at h
      · simp only [if_neg hc]
        intro h
        obtain ⟨e', he', hrest⟩ := conflictScan_topSeller products newStart newEnd rest h
        exact ⟨e', List.mem_cons_of_mem _ he', hrest⟩

lemma conflictScan_normal (products : List Product) (newStart newEnd : Int) :
    ∀ l : List ScheduledRun,
      conflictScan products newStart newEnd l = .conflictNormal →
      ∃ e ∈ l, ∃ p, getProductById products e.productId = some p ∧
        p.classification = .normal ∧
        newStart < e.endTime ∧ newEnd > e.startTime
  | [], h => by simp [conflictScan] at h
  | e :: rest, h => by
    revert h
    simp only [conflictScan]
    cases hf : getProductById products e.productId with
    | none =>
      intro h
      obtain ⟨e', he', hrest⟩ := conflictScan_normal products newStart newEnd rest h
      exact ⟨e', List.mem_cons_of_mem _ he', hrest⟩
    | some p =>
      by_cases hc : validatorCollision newStart newEnd e.startTime e.endTime = true
      · have hcol : newStart < e.endTime ∧ newEnd > e.startTime := by
          simpa [validatorCollision] using hc
        simp only [hc, if_true]
        intro h
        refine ⟨e, List.mem_cons_self _ _, p, hf, ?_, hcol⟩
        cases hcls : p.classification with
        | topSeller => simp [hcls] at h
        | normal => rfl
      · simp only [if_neg hc]
        intro h
        obtain ⟨e', he', hrest⟩ := conflictScan_normal products newStart newEnd rest h
        exact ⟨e', List.mem_cons_of_mem _ he', hrest⟩

lemma window_check_iff (s en opS opE : Int) (h0 : 0 ≤ s) (hse : s ≤ en) :
    ¬ ((¬ onTargetDay s ∨ s % 1440 < opS ∨ ¬ onTargetDay en ∨ en % 1440 > opE) ∧
       ¬ (onTargetDay en ∧ en % 1440 = opE ∧ s % 1440 ≥ opS)) ↔
    (opS ≤ s ∧ en ≤ opE ∧ en < 1440) := by
  constructor
  · intro h
    rw [not_and_or, not_not] at h
    rcases h with h | h
    · push_neg at h
      obtain ⟨hs, hsm, hen, henm⟩ := h
      have hs1 : s % 1440 = s := Int.emod_eq_of_lt hs.1 hs.2
      have hen1 : en % 1440 = en := Int.emod_eq_of_lt hen.1 hen.2
      rw [hs1] at hsm
      rw [hen1] at henm
      exact ⟨hsm, henm, hen.2⟩
    · obtain ⟨hen, heq, hop⟩ := h
      have hs1440 : s < 1440 := lt_of_le_of_lt hse hen.2
      have hs1 : s % 1440 = s := Int.emod_eq_of_lt h0 hs1440
      have hen1 : en % 1440 = en := Int.emod_eq_of_lt hen.1 hen.2
      rw [hs1] at hop
      rw [hen1] at heq
      exact ⟨hop, le_of_eq heq, hen.2⟩
  · intro ⟨h1, h2, h3⟩
    have hen0 : 0 ≤ en := le_trans h0 hse
    have hs1440 : s < 1440 := lt_of_le_of_lt hse h3
    have hs1 : s % 1440 = s := Int.emod_eq_of_lt h0 hs1440
    have hen1 : en % 1440 = en := Int.emod_eq_of_lt hen0 h3
    rw [not_and_or, not_not]
    left
    push_neg
    exact ⟨⟨h0, hs1440⟩, by rw [hs1]; exact h1, ⟨hen0, h3⟩, by rw [hen1]; exact h2⟩

lemma checkDropValidity_unfold (products : List Product)
    (lines : List ProductionLine) (allSchedules : List ScheduledRun)
    (dayOfWeek : Nat) (isChartForToday : Bool) (currentTime : Int)
    (item : ScheduledRun) (targetLineId : String) (newStartTime : Int)
    (product : Product) (targetLine : ProductionLine)
    (hprod : getProductById products item.productId = some product)
    (hl : getProductionLineById lines targetLineId = some targetLine)
    (hst : item.status = .pendente) :
    checkDropValidity products lines allSchedules dayOfWeek isChartForToday
        currentTime item targetLineId newStartTime =
      match targetLine.operatingHours.find? (fun oh => oh.dayOfWeek == dayOfWeek) with
      | none => .lineInactive
      | some lineOpHours =>
        if ¬ lineOpHours.isActive then .lineInactive
        else if (¬ onTargetDay newStartTime ∨
                 newStartTime % 1440 < lineOpHours.startMinutes ∨
                 ¬ onTargetDay (newStartTime + (item.endTime - item.startTime)) ∨
                 (newStartTime + (item.endTime - item.startTime)) % 1440 >
                   lineOpHours.endMinutes) ∧
                ¬ (onTargetDay (newStartTime + (item.endTime - item.startTime)) ∧
                   (newStartTime + (item.endTime - item.startTime)) % 1440 =
                     lineOpHours.endMinutes ∧
                   newStartTime % 1440 ≥ lineOpHours.startMinutes) then
          .outsideOperatingWindow
        else if isChartForToday ∧ newStartTime < currentTime then
          .beforeCurrentTime
        else
          conflictScan products newStartTime
            (newStartTime + (item.endTime - item.startTime))
            (allSchedules.filter (fun s =>
              s.lineId == targetLineId && s.id != item.id &&
              decide (onTargetDay s.startTime))) := by
  simp only [checkDropValidity, hprod, hl]
  simp [hst]

/-- C6 (amended): for a `Pendente` run whose product and target line both
resolve, with a well-formed interval (`start ≤ end`) and a proposal on the
target day's timeline (`0 ≤ proposedStart`), `checkDropValidity` accepts
exactly when the target line has an active operating window for the weekday,
the proposed interval lies inside it (an end exactly at the window end being
allowed), the proposal is not before the current minute when the chart shows
today, and the proposal overlaps no other same-day run on that line **whose
product resolves**; a collision rejection names a Top Seller collision exactly
when the scanned colliding product is a Top Seller, and a Normal collision
when it is Normal.  The verdict is a structured value, never an exception. -/
theorem claim_C6_amended (products : List Product) (lines : List ProductionLine)
    (allSchedules : List ScheduledRun) (dayOfWeek : Nat)
    (isChartForToday : Bool) (currentTime : Int) (item : ScheduledRun)
    (targetLineId : String) (newStartTime : Int) (targetLine : ProductionLine)
    (hp : (getProductById products item.productId).isSome = true)
    (hl : getProductionLineById lines targetLineId = some targetLine)
    (hst : item.status = .pendente)
    (hdur : item.startTime ≤ item.endTime)
    (hpos : 0 ≤ newStartTime) :
    (checkDropValidity products lines allSchedules dayOfWeek isChartForToday
        currentTime item targetLineId newStartTime = .valid ↔
      ∃ oh, targetLine.operatingHours.find? (fun o => o.dayOfWeek == dayOfWeek) =
          some oh ∧
        oh.isActive = true ∧
        oh.startMinutes ≤ newStartTime ∧
        newStartTime + (item.endTime - item.startTime) ≤ oh.endMinutes ∧
        newStartTime + (item.endTime - item.startTime) < 1440 ∧
        (isChartForToday = true → currentTime ≤ newStartTime) ∧
        (∀ e ∈ allSchedules, e.lineId = targetLineId → e.id ≠ item.id →
          onTargetDay e.startTime →
          (getProductById products e.productId).isSome = true →
          ¬ (newStartTime < e.endTime ∧
             newStartTime + (item.endTime - item.startTime) > e.startTime))) ∧
    (checkDropValidity products lines allSchedules dayOfWeek isChartForToday
        currentTime item targetLineId newStartTime = .conflictTopSeller →
      ∃ e ∈ allSchedules, e.lineId = targetLineId ∧ e.id ≠ item.id ∧
        onTargetDay e.startTime ∧
        ∃ p, getProductById products e.productId = some p ∧
          p.classification = .topSeller ∧
          newStartTime < e.endTime ∧
          newStartTime + (item.endTime - item.startTime) > e.startTime) ∧
    (checkDropValidity products lines allSchedules dayOfWeek isChartForToday
        currentTime item targetLineId newStartTime = .conflictNormal →
      ∃ e ∈ allSchedules, e.lineId = targetLineId ∧ e.id ≠ item.id ∧
        onTargetDay e.startTime ∧
        ∃ p, getProductById products e.productId = some p ∧
          p.classification = .normal ∧
          newStartTime < e.endTime ∧
          newStartTime + (item.endTime - item.startTime) > e.startTime) := by
  obtain ⟨product, hprod⟩ := Option.isSome_iff_exists.mp hp
  rw [checkDropValidity_unfold products lines allSchedules dayOfWeek
    isChartForToday currentTime item targetLineId newStartTime product
    targetLine hprod hl hst]
  have hse : newStartTime ≤ newStartTime + (item.endTime - item.startTime) := by
    have : (0 : Int) ≤ item.endTime - item.startTime := by omega
    omega
  have hfiltmem : ∀ e : ScheduledRun,
      e ∈ allSchedules.filter (fun s =>
        s.lineId == targetLineId && s.id != item.id &&
        decide (onTargetDay s.startTime)) ↔
      e ∈ allSchedules ∧ e.lineId = targetLineId ∧ e.id ≠ item.id ∧
        onTargetDay e.startTime := by
    intro e
    simp [List.mem_filter, and_assoc]
  cases hoh : targetLine.operatingHours.find? (fun o => o.dayOfWeek == dayOfWeek) with
  | none =>
    refine ⟨?_, ?_, ?_⟩ <;> simp
  | some oh =>
    dsimp only
    by_cases hact : oh.isActive = true
    case neg =>
      rw [if_pos hact]
      refine ⟨?_, ?_, ?_⟩ <;> simp [hact]
    case pos =>
      rw [if_neg (not_not_intro hact)]
      by_cases hw : (¬ onTargetDay newStartTime ∨
          newStartTime % 1440 < oh.startMinutes ∨
          ¬ onTargetDay (newStartTime + (item.endTime - item.startTime)) ∨
          (newStartTime + (item.endTime - item.startTime)) % 1440 >
            oh.endMinutes) ∧
         ¬ (onTargetDay (newStartTime + (item.endTime - item.startTime)) ∧
            (newStartTime + (item.endTime - item.startTime)) % 1440 =
              oh.endMinutes ∧
            newStartTime % 1440 ≥ oh.startMinutes)
      case pos =>
        rw [if_pos hw]
        have hnotwin : ¬ (oh.startMinutes ≤ newStartTime ∧
            newStartTime + (item.endTime - item.startTime) ≤ oh.endMinutes ∧
            newStartTime + (item.endTime - item.startTime) < 1440) := fun hcontra =>
          (window_check_iff newStartTime
            (newStartTime + (item.endTime - item.startTime))
            oh.startMinutes oh.endMinutes hpos hse).mpr hcontra hw
        refine ⟨?_, ?_, ?_⟩
        · constructor
          · intro h; exact absurd h (by simp)
          · rintro ⟨oh', hoh', hact', h1, h2, h3, -⟩
            cases hoh'
            exact absurd ⟨h1, h2, h3⟩ hnotwin
        · intro h; exact absurd h (by simp)
        · intro h; exact absurd h (by simp)
      case neg =>
        rw [if_neg hw]
        have hwin := (window_check_iff newStartTime
          (newStartTime + (item.endTime - item.startTime))
          oh.startMinutes oh.endMinutes hpos hse).mp hw
        by_cases hpast : isChartForToday = true ∧ newStartTime < currentTime
        case pos =>
          rw [if_pos hpast]
          refine ⟨?_, ?_, ?_⟩
          · constructor
            · intro h; exact absurd h (by simp)
            · rintro ⟨oh', hoh', hact', -, -, -, hnow, -⟩
              cases hoh'
              exact absurd (hnow hpast.1) (not_le.mpr hpast.2)
          · intro h; exact absurd h (by simp)
          · intro h; exact absurd h (by simp)
        case neg =>
          rw [if_neg hpast]
          refine ⟨?_, ?_, ?_⟩
          · rw [conflictScan_valid_iff]
            constructor
            · intro h
              refine ⟨oh, rfl, hact, hwin.1, hwin.2.1, hwin.2.2, ?_, ?_⟩
              · intro htoday
                by_contra hlt
                exact hpast ⟨htoday, not_le.mp hlt⟩
              · intro e he hline hid hday hres
                exact h e (hfiltmem e |>.mpr ⟨he, hline, hid, hday⟩) hres
            · rintro ⟨oh', hoh', -, -, -, -, -, hall⟩
              cases hoh'
              intro e he hres
              obtain ⟨he', hline, hid, hday⟩ := hfiltmem e |>.mp he
              exact hall e he' hline hid hday hres
          · intro h
            obtain ⟨e, he, p, hep, hcls, hcol⟩ :=
              conflictScan_topSeller products newStartTime
                (newStartTime + (item.endTime - item.startTime)) _ h
            obtain ⟨he', hline, hid, hday⟩ := hfiltmem e |>.mp he
            exact ⟨e, he', hline, hid, hday, p, hep, hcls, hcol⟩
          · intro h
            obtain ⟨e, he, p, hep, hcls, hcol⟩ :=
              conflictScan_normal products newStartTime
                (newStartTime + (item.endTime - item.startTime)) _ h
            obtain ⟨he', hline, hid, hday⟩ := hfiltmem e |>.mp he
            exact ⟨e, he', hline, hid, hday, p, hep, hcls, hcol⟩

/-- C6 witness: the amended characterization applied at a concrete snapshot —
a `Pendente` Normal run moved so that it exactly touches an existing run's end
inside the operating window is accepted. -/
theorem claim_C6_witness :
    checkDropValidity [⟨"p", .normal, [⟨"e1", 60⟩]⟩]
      [⟨"L", ["e1"], [⟨1, 480, 1020, true⟩]⟩]
      [⟨"other", "p", "L", 480, 540, 1, .pendente, ""⟩] 1 false 0
      ⟨"r", "p", "L", 480, 540, 1, .pendente, ""⟩ "L" 540 = .valid := by
  have h := claim_C6_amended [⟨"p", .normal, [⟨"e1", 60⟩]⟩]
    [⟨"L", ["e1"], [⟨1, 480, 1020, true⟩]⟩]
    [⟨"other", "p", "L", 480, 540, 1, .pendente, ""⟩] 1 false 0
    ⟨"r", "p", "L", 480, 540, 1, .pendente, ""⟩ "L" 540
    ⟨"L", ["e1"], [⟨1, 480, 1020, true⟩]⟩
    (by decide) (by decide) rfl (by decide) (by decide)
  exact h.1.mpr ⟨⟨1, 480, 1020, true⟩, by decide, rfl, by decide, by decide,
    by decide, by decide, by decide⟩

/-- C6 counterexample: the claim's "rejects exactly when one of the four
conditions holds" fails — a run with status `Em Progresso`, proposed inside the
active operating window of its own line, not today, with no other run on the
line, violates none of the four conditions yet is rejected (by the status
guard the claim omits). -/
theorem claim_C6_counterexample :
    checkDropValidity [⟨"p", .normal, [⟨"e1", 60⟩]⟩]
      [⟨"L", ["e1"], [⟨1, 480, 1020, true⟩]⟩] [] 1 false 0
      ⟨"r", "p", "L", 480, 540, 1, .emProgresso, ""⟩ "L" 600 =
        .statusNotPendente ∧
    checkDropValidity [⟨"p", .normal, [⟨"e1", 60⟩]⟩]
      [⟨"L", ["e1"], [⟨1, 480, 1020, true⟩]⟩] [] 1 false 0
      ⟨"r", "p", "L", 480, 540, 1, .emProgresso, ""⟩ "L" 600 ≠ .valid := by
  exact ⟨by decide, by decide⟩

/-- C3 counterexample: `checkDropValidity` does **not** reject a Top Seller
run whose status is `Pendente` — the classification guard lives in the
drag-start handler, not in the validator, so the validator accepts this
move of a Top Seller product. -/
theorem claim_C3_counterexample :
    (getProductById [⟨"pT", .topSeller, [⟨"e1", 60⟩]⟩] "pT").map
        (fun p => p.classification) = some .topSeller ∧
    checkDropValidity [⟨"pT", .topSeller, [⟨"e1", 60⟩]⟩]
      [⟨"L", ["e1"], [⟨1, 480, 1020, true⟩]⟩] [] 1 false 0
      ⟨"rTop", "pT", "L", 480, 540, 1, .pendente, ""⟩ "L" 600 = .valid := by
  exact ⟨by decide, by decide⟩

lemma mem_sortByStartTime {x : ScheduledRun} {l : List ScheduledRun} :
    x ∈ sortByStartTime l ↔ x ∈ l :=
  (List.perm_insertionSort _ l).mem_iff

lemma findSlotLoop_sound (slots : List ScheduledRun) (effS opE d : Int) :
    ∀ (fuel : Nat) (c t : Int),
      findSlotLoop slots effS opE d fuel c = some t →
      c ≤ t ∧ onTargetDay t ∧ onTargetDay (t + d) ∧ t + d ≤ opE ∧
      ∀ ex ∈ slots, ¬ (t < ex.endTime ∧ t + d > ex.startTime)
  | 0, c, t, h => by simp [findSlotLoop] at h
  | fuel + 1, c, t, h => by
    revert h
    simp only [findSlotLoop]
    by_cases h1 : ¬ onTargetDay c ∨ c % 1440 ≥ opE
    · rw [if_pos h1]
      intro h
      exact absurd h (by simp)
    · rw [if_neg h1]
      by_cases h2 : (¬ onTargetDay (c + d) ∨ (c + d) % 1440 > opE) ∧
          ¬ (onTargetDay (c + d) ∧ (c + d) % 1440 = opE)
      · rw [if_pos h2]
        intro h
        exact absurd h (by simp)
      · rw [if_neg h2]
        cases hcol : firstCollision slots c (c + d) with
        | some ex =>
          intro h
          have ih := findSlotLoop_sound slots effS opE d fuel
            (max ex.endTime effS) t h
          have hex : c < ex.endTime := by
            have hpred := List.find?_some hcol
            simp only [optimizerCollision, Bool.and_eq_true, decide_eq_true_eq]
              at hpred
            exact hpred.1
          exact ⟨le_trans (le_of_lt hex)
            (le_trans (le_max_left _ _) ih.1), ih.2⟩
        | none =>
          intro h
          cases h
          push_neg at h1
          have hfree : ∀ ex ∈ slots, ¬ (c < ex.endTime ∧ c + d > ex.startTime) := by
            intro ex hex
            have := List.find?_eq_none.mp hcol ex hex
            simpa [optimizerCollision] using this
          rw [not_and_or, not_not] at h2
          have hend : onTargetDay (c + d) ∧ c + d ≤ opE := by
            rcases h2 with h2 | h2
            · push_neg at h2
              obtain ⟨hday, hle⟩ := h2
              rw [Int.emod_eq_of_lt hday.1 hday.2] at hle
              exact ⟨hday, hle⟩
            · obtain ⟨hday, heq⟩ := h2
              rw [Int.emod_eq_of_lt hday.1 hday.2] at heq
              exact ⟨hday, le_of_eq heq⟩
          exact ⟨le_refl c, h1.1, hend.1, hend.2, hfree⟩

lemma partitionRuns_fixed (products : List Product) :
    ∀ l : List ScheduledRun,
      (partitionRuns products l).1 =
        l.filter (fun s => decide (isLocked products s))
  | [] => rfl
  | s :: rest => by
    have ih := partitionRuns_fixed products rest
    simp only [partitionRuns, List.filter_cons]
    by_cases h1 : (getProductById products s.productId).map
        (fun p => p.classification) = some .topSeller ∨
        ((getProductById products s.productId).map
          (fun p => p.classification) = some .normal ∧ s.status ≠ .pendente)
    · rw [if_pos h1]
      have hlock : isLocked products s := by
        rcases h1 with h | h
        · intro hcon
          rw [h] at hcon
          exact absurd hcon.1 (by simp)
        · intro hcon
          exact h.2 hcon.2
      rw [if_pos (decide_eq_true hlock)]
      exact congrArg (s :: ·) ih
    · rw [if_neg h1]
      by_cases h2 : (getProductById products s.productId).map
          (fun p => p.classification) = some .normal ∧ s.status = .pendente
      · rw [if_pos h2]
        have hnlock : ¬ isLocked products s := not_not_intro h2
        rw [if_neg (fun h => hnlock (of_decide_eq_true h))]
        exact ih
      · rw [if_neg h2]
        have hlock : isLocked products s := h2
        rw [if_pos (decide_eq_true hlock)]
        exact congrArg (s :: ·) ih

lemma partitionRuns_movable (products : List Product) :
    ∀ l : List ScheduledRun,
      (partitionRuns products l).2.1 =
        l.filter (fun s =>
          decide ((getProductById products s.productId).map
            (fun p => p.classification) = some .normal) &&
          decide (s.status = .pendente))
  | [] => rfl
  | s :: rest => by
    have ih := partitionRuns_movable products rest
    simp only [partitionRuns, List.filter_cons]
    by_cases h1 : (getProductById products s.productId).map
        (fun p => p.classification) = some .topSeller ∨
        ((getProductById products s.productId).map
          (fun p => p.classification) = some .normal ∧ s.status ≠ .pendente)
    · rw [if_pos h1]
      have hnm : ¬ ((getProductById products s.productId).map
          (fun p => p.classification) = some .normal ∧ s.status = .pendente) := by
        rcases h1 with h | h
        · intro hcon
          rw [h] at hcon
          exact absurd hcon.1 (by simp)
        · intro hcon
          exact h.2 hcon.2
      simp only [Bool.and_eq_true, decide_eq_true_eq]
      rw [if_neg (by intro hcon; exact hnm ⟨hcon.1, hcon.2⟩)]
      exact ih
    · rw [if_neg h1]
      by_cases h2 : (getProductById products s.productId).map
          (fun p => p.classification) = some .normal ∧ s.status = .pendente
      · rw [if_pos h2]
        simp only [Bool.and_eq_true, decide_eq_true_eq]
        rw [if_pos h2]
        exact congrArg (s :: ·) ih
      · rw [if_neg h2]
        simp only [Bool.and_eq_true, decide_eq_true_eq]
        rw [if_neg h2]
        exact ih

/-- Everything one placement of the per-line pass guarantees: it re-times a
movable (`Normal`/`Pendente`) run of this line's same-day group, changing no
other field, and lands inside the line's active operating window for the
target weekday, on the target day, with positive length. -/
def PlacementSound (products : List Product) (line : ProductionLine)
    (targetWeekday : Nat) (runsForLine : List ScheduledRun)
    (p : ScheduledRun) : Prop :=
  ∃ s ∈ runsForLine,
    (getProductById products s.productId).map (fun q => q.classification) =
      some .normal ∧
    s.status = .pendente ∧
    p = { s with startTime := p.startTime, endTime := p.endTime } ∧
    ∃ oh, line.operatingHours.find? (fun o => o.dayOfWeek == targetWeekday) =
        some oh ∧
      oh.isActive = true ∧
      oh.startMinutes ≤ p.startTime ∧ p.endTime ≤ oh.endMinutes ∧
      onTargetDay p.startTime ∧ onTargetDay p.endTime ∧
      p.startTime < p.endTime

/-- The invariant the per-line fold maintains: the occupied slots contain the
fixed runs and all placements so far; placements are pairwise non-overlapping,
avoid every fixed run, are individually sound, and are counted exactly by
`optimized`. -/
def LineInv (products : List Product) (line : ProductionLine)
    (targetWeekday : Nat) (fixedS runsForLine : List ScheduledRun)
    (acc : LineAcc) : Prop :=
  (∀ x, x ∈ fixedS ∨ x ∈ acc.placements → x ∈ acc.slots) ∧
  acc.placements.Pairwise (fun a b => ¬ overlapsRun a b) ∧
  (∀ p ∈ acc.placements, ∀ f ∈ fixedS, ¬ overlapsRun p f) ∧
  (∀ p ∈ acc.placements, PlacementSound products line targetWeekday runsForLine p) ∧
  acc.optimized = acc.placements.length

lemma placeRun_inv (products : List Product) (line : ProductionLine)
    (targetWeekday : Nat) (isToday : Bool) (nowMinutes : Int)
    (fixedS runsForLine : List ScheduledRun) (acc : LineAcc) (s : ScheduledRun)
    (hmem : s ∈ runsForLine)
    (hcls : (getProductById products s.productId).map
      (fun q => q.classification) = some .normal)
    (hstp : s.status = .pendente)
    (hinv : LineInv products line targetWeekday fixedS runsForLine acc) :
    LineInv products line targetWeekday fixedS runsForLine
      (placeRun products line targetWeekday isToday nowMinutes acc s) := by
  obtain ⟨hsub, hpw, hfx, hsound, hcnt⟩ := hinv
  obtain ⟨product, hprod, hpcls⟩ := Option.map_eq_some'.mp hcls
  unfold placeRun
  rw [hprod]
  dsimp only
  by_cases hd : calculateProductDurationOnLine product line s.quantity ≤ 0
  · rw [if_pos hd]
    exact ⟨hsub, hpw, hfx, hsound, hcnt⟩
  · rw [if_neg hd]
    cases hoh : line.operatingHours.find? (fun o => o.dayOfWeek == targetWeekday) with
    | none => exact ⟨hsub, hpw, hfx, hsound, hcnt⟩
    | some oh =>
      dsimp only
      by_cases hact : oh.isActive = true
      case neg =>
        rw [if_pos hact]
        exact ⟨hsub, hpw, hfx, hsound, hcnt⟩
      case pos =>
        rw [if_neg (not_not_intro hact)]
        set effStart := if isToday = true ∧ nowMinutes > oh.startMinutes
          then nowMinutes else oh.startMinutes with heff
        by_cases hpassed : effStart % 1440 ≥ oh.endMinutes
        · rw [if_pos hpassed]
          exact ⟨hsub, hpw, hfx, hsound, hcnt⟩
        · rw [if_neg hpassed]
          cases hfind : findSlot acc.slots effStart oh.endMinutes
              (calculateProductDurationOnLine product line s.quantity) with
          | none => exact ⟨hsub, hpw, hfx, hsound, hcnt⟩
          | some t =>
            dsimp only
            have hspec := findSlotLoop_sound acc.slots effStart oh.endMinutes
              (calculateProductDurationOnLine product line s.quantity)
              (acc.slots.length + 1) effStart t hfind
            obtain ⟨heffle, hdayt, hdayend, hendle, hfree⟩ := hspec
            have hdpos : 0 < calculateProductDurationOnLine product line s.quantity :=
              lt_of_not_le hd
            have hopS : oh.startMinutes ≤ effStart := by
              rw [heff]
              split_ifs with h
              · exact le_of_lt h.2
              · exact le_refl _
            set d := calculateProductDurationOnLine product line s.quantity
            set u : ScheduledRun :=
              { s with startTime := t, endTime := t + d } with hu
            have humem : ∀ x, x ∈ sortByStartTime (acc.slots ++ [u]) ↔
                x ∈ acc.slots ∨ x = u := by
              intro x
              rw [mem_sortByStartTime, List.mem_append, List.mem_singleton]
            have hufree : ∀ x ∈ acc.slots, ¬ overlapsRun u x := by
              intro x hx hovl
              exact hfree x hx hovl
            refine ⟨?_, ?_, ?_, ?_, ?_⟩
            · intro x hx
              rw [humem]
              rcases hx with hx | hx
              · exact Or.inl (hsub x (Or.inl hx))
              · rcases List.mem_append.mp hx with hx | hx
                · exact Or.inl (hsub x (Or.inr hx))
                · exact Or.inr (List.mem_singleton.mp hx)
            · rw [List.pairwise_append]
              refine ⟨hpw, List.pairwise_singleton _ _, ?_⟩
              intro a ha b hb
              rw [List.mem_singleton] at hb
              subst hb
              intro hovl
              exact hufree a (hsub a (Or.inr ha)) ⟨hovl.2, hovl.1⟩
            · intro p hp f hf
              rcases List.mem_append.mp hp with hp | hp
              · exact hfx p hp f hf
              · rw [List.mem_singleton] at hp
                subst hp
                exact hufree f (hsub f (Or.inl hf))
            · intro p hp
              rcases List.mem_append.mp hp with hp | hp
              · exact hsound p hp
              · rw [List.mem_singleton] at hp
                subst hp
                refine ⟨s, hmem, hcls, hstp, rfl, oh, hoh, hact, ?_, ?_, ?_, ?_, ?_⟩
                · exact le_trans hopS heffle
                · exact hendle
                · exact hdayt
                · exact hdayend
                · exact lt_add_of_pos_right t hdpos
            · simp [hcnt]

lemma foldl_placeRun_inv (products : List Product) (line : ProductionLine)
    (targetWeekday : Nat) (isToday : Bool) (nowMinutes : Int)
    (fixedS runsForLine : List ScheduledRun) :
    ∀ (mov : List ScheduledRun) (acc : LineAcc),
      (∀ s ∈ mov, s ∈ runsForLine ∧
        (getProductById products s.productId).map
          (fun q => q.classification) = some .normal ∧
        s.status = .pendente) →
      LineInv products line targetWeekday fixedS runsForLine acc →
      LineInv products line targetWeekday fixedS runsForLine
        (mov.foldl (placeRun products line targetWeekday isToday nowMinutes) acc)
  | [], acc, _, hinv => hinv
  | s :: rest, acc, hmov, hinv => by
    rw [List.foldl_cons]
    have hs := hmov s (List.mem_cons_self _ _)
    exact foldl_placeRun_inv products line targetWeekday isToday nowMinutes
      fixedS runsForLine rest _
      (fun x hx => hmov x (List.mem_cons_of_mem _ hx))
      (placeRun_inv products line targetWeekday isToday nowMinutes fixedS
        runsForLine acc s hs.1 hs.2.1 hs.2.2 hinv)

lemma processLine_sound (products : List Product) (line : ProductionLine)
    (runsForLine : List ScheduledRun) (targetWeekday : Nat) (isToday : Bool)
    (nowMinutes : Int) :
    LineInv products line targetWeekday
      (sortByStartTime (partitionRuns products runsForLine).1) runsForLine
      (processLine products line runsForLine targetWeekday isToday nowMinutes) := by
  unfold processLine
  apply foldl_placeRun_inv
  · intro s hs
    rw [mem_sortByStartTime, partitionRuns_movable] at hs
    obtain ⟨hmem, hp⟩ := List.mem_filter.mp hs
    simp only [Bool.and_eq_true, decide_eq_true_eq] at hp
    exact ⟨hmem, hp.1, hp.2⟩
  · exact ⟨fun x hx => by
      rcases hx with hx | hx
      · exact hx
      · exact absurd hx (List.not_mem_nil x),
      List.Pairwise.nil, by simp, by simp, rfl⟩

lemma processLine_locked_avoid (products : List Product) (line : ProductionLine)
    (runsForLine : List ScheduledRun) (targetWeekday : Nat) (isToday : Bool)
    (nowMinutes : Int) :
    ∀ p ∈ (processLine products line runsForLine targetWeekday isToday
        nowMinutes).placements,
      ∀ f ∈ runsForLine, isLocked products f → ¬ overlapsRun p f := by
  intro p hp f hf hlock
  have hinv := processLine_sound products line runsForLine targetWeekday
    isToday nowMinutes
  apply hinv.2.2.1 p hp f
  rw [mem_sortByStartTime, partitionRuns_fixed]
  exact List.mem_filter.mpr ⟨hf, decide_eq_true hlock⟩

lemma dedupFirst_nodup_aux :
    ∀ (xs acc : List String), acc.Nodup →
      (xs.foldl (fun acc x => if x ∈ acc then acc else acc ++ [x]) acc).Nodup
  | [], _, h => h
  | x :: xs, acc, h => by
    rw [List.foldl_cons]
    by_cases hx : x ∈ acc
    · rw [if_pos hx]
      exact dedupFirst_nodup_aux xs acc h
    · rw [if_neg hx]
      refine dedupFirst_nodup_aux xs _ ?_
      rw [List.nodup_append]
      refine ⟨h, List.nodup_singleton x, ?_⟩
      intro a ha hb
      rw [List.mem_singleton] at hb
      subst hb
      exact hx ha

lemma dedupFirst_nodup (xs : List String) : (dedupFirst xs).Nodup :=
  dedupFirst_nodup_aux xs [] List.nodup_nil

lemma placementSound_lineId {products : List Product} {line : ProductionLine}
    {targetWeekday : Nat} {sameDay : List ScheduledRun} {lid : String}
    {q : ScheduledRun}
    (h : PlacementSound products line targetWeekday
      (sameDay.filter (fun s => s.lineId == lid)) q) :
    q.lineId = lid := by
  obtain ⟨s, hsmem, -, -, heq, -⟩ := h
  have h1 : q.lineId = s.lineId := by rw [heq]
  have h2 : (s.lineId == lid) = true := (List.mem_filter.mp hsmem).2
  rw [h1]
  exact eq_of_beq h2

lemma foldl_optimizeLineStep_inv (products : List Product)
    (productionLines : List ProductionLine) (sameDay : List ScheduledRun)
    (targetWeekday : Nat) (isToday : Bool) (nowMinutes : Int) :
    ∀ (lids : List String) (res : OptimizeResult),
      lids.Nodup →
      (∀ p ∈ res.placements,
        (∃ line, getProductionLineById productionLines p.lineId = some line ∧
          PlacementSound products line targetWeekday
            (sameDay.filter (fun s => s.lineId == p.lineId)) p) ∧
        (∀ s ∈ sameDay, s.lineId = p.lineId → isLocked products s →
          ¬ overlapsRun p s) ∧
        p.lineId ∉ lids) →
      res.placements.Pairwise
        (fun a b => a.lineId = b.lineId → ¬ overlapsRun a b) →
      res.optimizedCount = res.placements.length →
      (∀ p ∈ (lids.foldl (optimizeLineStep products productionLines sameDay
          targetWeekday isToday nowMinutes) res).placements,
        (∃ line, getProductionLineById productionLines p.lineId = some line ∧
          PlacementSound products line targetWeekday
            (sameDay.filter (fun s => s.lineId == p.lineId)) p) ∧
        (∀ s ∈ sameDay, s.lineId = p.lineId → isLocked products s →
          ¬ overlapsRun p s)) ∧
      (lids.foldl (optimizeLineStep products productionLines sameDay
          targetWeekday isToday nowMinutes) res).placements.Pairwise
        (fun a b => a.lineId = b.lineId → ¬ overlapsRun a b) ∧
      (lids.foldl (optimizeLineStep products productionLines sameDay
          targetWeekday isToday nowMinutes) res).optimizedCount =
        (lids.foldl (optimizeLineStep products productionLines sameDay
          targetWeekday isToday nowMinutes) res).placements.length
  | [], res, _, hper, hpw, hcnt => by
    refine ⟨?_, hpw, hcnt⟩
    intro p hp
    exact ⟨(hper p hp).1, (hper p hp).2.1⟩
  | lid :: rest, res, hnd, hper, hpw, hcnt => by
    rw [List.foldl_cons]
    have hndr := (List.nodup_cons.mp hnd).2
    have hlidr := (List.nodup_cons.mp hnd).1
    cases hline : getProductionLineById productionLines lid with
    | none =>
      refine foldl_optimizeLineStep_inv products productionLines sameDay
        targetWeekday isToday nowMinutes rest _ hndr ?_ ?_ ?_
      · intro p hp
        simp only [optimizeLineStep, hline] at hp ⊢
        have h := hper p hp
        exact ⟨h.1, h.2.1, fun hm => h.2.2 (List.mem_cons_of_mem _ hm)⟩
      · simp only [optimizeLineStep, hline]
        exact hpw
      · simp only [optimizeLineStep, hline]
        exact hcnt
    | some line =>
      have hacc := processLine_sound products line
        (sameDay.filter (fun s => s.lineId == lid)) targetWeekday isToday
        nowMinutes
      have hlock := processLine_locked_avoid products line
        (sameDay.filter (fun s => s.lineId == lid)) targetWeekday isToday
        nowMinutes
      set acc := processLine products line
        (sameDay.filter (fun s => s.lineId == lid)) targetWeekday isToday
        nowMinutes with hacc_def
      have hstep : optimizeLineStep products productionLines sameDay
          targetWeekday isToday nowMinutes res lid =
          { placements := res.placements ++ acc.placements,
            optimizedCount := res.optimizedCount + acc.optimized,
            unoptimizedCount := res.unoptimizedCount + acc.unoptimized } := by
        simp only [optimizeLineStep, hline]
      rw [hstep]
      have hqlid : ∀ q ∈ acc.placements, q.lineId = lid := by
        intro q hq
        exact placementSound_lineId (hacc.2.2.2.1 q hq)
      refine foldl_optimizeLineStep_inv products productionLines sameDay
        targetWeekday isToday nowMinutes rest _ hndr ?_ ?_ ?_
      · intro p hp
        rcases List.mem_append.mp hp with hp | hp
        · have h := hper p hp
          exact ⟨h.1, h.2.1, fun hm => h.2.2 (List.mem_cons_of_mem _ hm)⟩
        · have hql := hqlid p hp
          refine ⟨⟨line, ?_, ?_⟩, ?_, ?_⟩
          · rw [hql]
            exact hline
          · rw [hql]
            exact hacc.2.2.2.1 p hp
          · intro s hs hsl hslock
            refine hlock p hp s ?_ hslock
            exact List.mem_filter.mpr ⟨hs, by simp [hsl, hql]⟩
          · rw [hql]
            exact hlidr
      · rw [List.pairwise_append]
        refine ⟨hpw, ?_, ?_⟩
        · refine List.Pairwise.imp ?_ hacc.2.1
          intro a b h
          exact fun _ => h
        · intro a ha b hb heq
          have hna : a.lineId ∉ lid :: rest := (hper a ha).2.2
          rw [heq, hqlid b hb] at hna
          exact absurd (List.mem_cons_self _ _) hna
      · simp only [List.length_append]
        rw [hcnt, hacc.2.2.2.2]

/-- Aggregate soundness of `optimizeDaySchedules`: every placement re-times a
movable run of its own line's same-day group inside that line's active
operating window; placements on a common line are pairwise non-overlapping and
avoid every locked same-day run of that line; and the optimized count equals
the number of placements. -/
lemma optimizeDaySchedules_sound (products : List Product)
    (productionLines : List ProductionLine) (schedules : List ScheduledRun)
    (targetWeekday : Nat) (isToday : Bool) (nowMinutes : Int) :
    (∀ p ∈ (optimizeDaySchedules products productionLines schedules
        targetWeekday isToday nowMinutes).placements,
      (∃ line, getProductionLineById productionLines p.lineId = some line ∧
        PlacementSound products line targetWeekday
          ((schedules.filter (fun s => decide (onTargetDay s.startTime))).filter
            (fun s => s.lineId == p.lineId)) p) ∧
      (∀ s ∈ schedules, onTargetDay s.startTime → s.lineId = p.lineId →
        isLocked products s → ¬ overlapsRun p s)) ∧
    (optimizeDaySchedules products productionLines schedules targetWeekday
      isToday nowMinutes).placements.Pairwise
        (fun a b => a.lineId = b.lineId → ¬ overlapsRun a b) ∧
    (optimizeDaySchedules products productionLines schedules targetWeekday
        isToday nowMinutes).optimizedCount =
      (optimizeDaySchedules products productionLines schedules targetWeekday
        isToday nowMinutes).placements.length := by
  have h := foldl_optimizeLineStep_inv products productionLines
    (schedules.filter (fun s => decide (onTargetDay s.startTime)))
    targetWeekday isToday nowMinutes
    (dedupFirst ((schedules.filter (fun s =>
      decide (onTargetDay s.startTime))).map (fun s => s.lineId)))
    ⟨[], 0, 0⟩
    (dedupFirst_nodup _)
    (by intro p hp; exact absurd hp (List.not_mem_nil p))
    List.Pairwise.nil
    rfl
  refine ⟨?_, h.2.1, h.2.2⟩
  intro p hp
  have hper := h.1 p hp
  refine ⟨hper.1, ?_⟩
  intro s hs hday hsl hslock
  exact hper.2 s (List.mem_filter.mpr ⟨hs, decide_eq_true hday⟩) hsl hslock

instance (a b : ScheduledRun) : Decidable (overlapsRun a b) := by
  unfold overlapsRun; infer_instance

/-- C1 (amended): placements of one optimizer pass on a common line never
overlap each other, and never overlap any locked run **that starts on the
target day** on that line (runs spilling into the day from an earlier day are
not considered, as the counterexample shows). -/
theorem claim_C1_amended (products : List Product)
    (productionLines : List ProductionLine) (schedules : List ScheduledRun)
    (targetWeekday : Nat) (isToday : Bool) (nowMinutes : Int) :
    (optimizeDaySchedules products productionLines schedules targetWeekday
      isToday nowMinutes).placements.Pairwise
        (fun a b => a.lineId = b.lineId → ¬ overlapsRun a b) ∧
    (∀ p ∈ (optimizeDaySchedules products productionLines schedules
        targetWeekday isToday nowMinutes).placements,
      ∀ s ∈ schedules, onTargetDay s.startTime → s.lineId = p.lineId →
        isLocked products s → ¬ overlapsRun p s) := by
  have h := optimizeDaySchedules_sound products productionLines schedules
    targetWeekday isToday nowMinutes
  exact ⟨h.2.1, fun p hp s hs hd hl hlock => (h.1 p hp).2 s hs hd hl hlock⟩

/-- C1 witness: in the spec's own scenario (a locked Top Seller at 09:00-10:00
and a movable 90-minute run), the placement the optimizer produces
(10:00-11:30) does not overlap the locked run. -/
theorem claim_C1_witness :
    ¬ overlapsRun ⟨"rC", "pN90", "L", 600, 690, 1, .pendente, ""⟩
      ⟨"rTS", "pT", "L", 540, 600, 1, .pendente, ""⟩ := by
  have h := claim_C1_amended [⟨"pN90", .normal, [⟨"e1", 90⟩]⟩,
      ⟨"pT", .topSeller, [⟨"e1", 60⟩]⟩]
    [⟨"L", ["e1"], [⟨1, 480, 1020, true⟩]⟩]
    [⟨"rTS", "pT", "L", 540, 600, 1, .pendente, ""⟩,
     ⟨"rC", "pN90", "L", 510, 600, 1, .pendente, ""⟩] 1 false 0
  exact h.2 ⟨"rC", "pN90", "L", 600, 690, 1, .pendente, ""⟩ (by decide)
    ⟨"rTS", "pT", "L", 540, 600, 1, .pendente, ""⟩ (by decide) (by decide)
    (by decide) (by decide)

/-- C1 counterexample: the unrestricted claim fails — a locked (Top Seller)
run that started the previous day and spills into the target day on the same
line is not in the optimizer's occupied set, and the pass places a movable run
right on top of it. -/
theorem claim_C1_counterexample :
    (optimizeDaySchedules [⟨"pN60", .normal, [⟨"e1", 60⟩]⟩,
        ⟨"pT", .topSeller, [⟨"e1", 60⟩]⟩]
      [⟨"L", ["e1"], [⟨1, 480, 1020, true⟩]⟩]
      [⟨"rLock", "pT", "L", -60, 600, 1, .pendente, ""⟩,
       ⟨"rM", "pN60", "L", 480, 500, 1, .pendente, ""⟩] 1 false 0).placements =
      [⟨"rM", "pN60", "L", 480, 540, 1, .pendente, ""⟩] ∧
    isLocked [⟨"pN60", .normal, [⟨"e1", 60⟩]⟩, ⟨"pT", .topSeller, [⟨"e1", 60⟩]⟩]
      ⟨"rLock", "pT", "L", -60, 600, 1, .pendente, ""⟩ ∧
    overlapsRun ⟨"rM", "pN60", "L", 480, 540, 1, .pendente, ""⟩
      ⟨"rLock", "pT", "L", -60, 600, 1, .pendente, ""⟩ := by
  refine ⟨by decide, by decide, by decide⟩

/-- C2: every placement of an optimizer pass starts no earlier than the
operating-window start of its line for the target weekday, and ends no later
than the window's end. -/
theorem claim_C2_confirmed (products : List Product)
    (productionLines : List ProductionLine) (schedules : List ScheduledRun)
    (targetWeekday : Nat) (isToday : Bool) (nowMinutes : Int) :
    ∀ p ∈ (optimizeDaySchedules products productionLines schedules
        targetWeekday isToday nowMinutes).placements,
      ∃ line, getProductionLineById productionLines p.lineId = some line ∧
        ∃ oh, line.operatingHours.find?
            (fun o => o.dayOfWeek == targetWeekday) = some oh ∧
          oh.isActive = true ∧
          oh.startMinutes ≤ p.startTime ∧ p.endTime ≤ oh.endMinutes := by
  intro p hp
  have h := (optimizeDaySchedules_sound products productionLines schedules
    targetWeekday isToday nowMinutes).1 p hp
  obtain ⟨⟨line, hline, s, hsmem, hcls, hst, heq, oh, hoh, hact, hge, hle, -⟩, -⟩ := h
  exact ⟨line, hline, oh, hoh, hact, hge, hle⟩

/-- C2 witness: in the spec's two-run scenario, the second placement
(10:00-12:00) lies inside the line's 08:00-17:00 Monday window. -/
theorem claim_C2_witness :
    ∃ line, getProductionLineById [⟨"L", ["e1"], [⟨1, 480, 1020, true⟩]⟩]
        (ScheduledRun.lineId ⟨"rB", "pN", "L", 600, 720, 1, .pendente, ""⟩) =
      some line ∧
      ∃ oh, line.operatingHours.find? (fun o => o.dayOfWeek == 1) = some oh ∧
        oh.isActive = true ∧
        oh.startMinutes ≤ (600 : Int) ∧ (720 : Int) ≤ oh.endMinutes :=
  claim_C2_confirmed [⟨"pN", .normal, [⟨"e1", 120⟩]⟩]
    [⟨"L", ["e1"], [⟨1, 480, 1020, true⟩]⟩]
    [⟨"rA", "pN", "L", 480, 600, 1, .pendente, ""⟩,
     ⟨"rB", "pN", "L", 480, 600, 1, .pendente, ""⟩] 1 false 0
    ⟨"rB", "pN", "L", 600, 720, 1, .pendente, ""⟩ (by decide)

/-- C9: a placement changes only the run's start and end: its id, product,
line, quantity, status and notes are those of a run of the input snapshot —
in particular the optimizer never moves a run to a different line. -/
theorem claim_C9_confirmed (products : List Product)
    (productionLines : List ProductionLine) (schedules : List ScheduledRun)
    (targetWeekday : Nat) (isToday : Bool) (nowMinutes : Int) :
    ∀ p ∈ (optimizeDaySchedules products productionLines schedules
        targetWeekday isToday nowMinutes).placements,
      ∃ s ∈ schedules, p.id = s.id ∧ p.productId = s.productId ∧
        p.lineId = s.lineId ∧ p.quantity = s.quantity ∧
        p.status = s.status ∧ p.notes = s.notes := by
  intro p hp
  have h := (optimizeDaySchedules_sound products productionLines schedules
    targetWeekday isToday nowMinutes).1 p hp
  obtain ⟨⟨line, hline, s, hsmem, hcls, hst, heq, -⟩, -⟩ := h
  have hs1 : s ∈ schedules :=
    (List.mem_filter.mp (List.mem_filter.mp hsmem).1).1
  refine ⟨s, hs1, ?_, ?_, ?_, ?_, ?_, ?_⟩ <;> rw [heq]

/-- C9 witness: the concrete placement 10:00-12:00 of the two-run scenario
keeps every non-time field of a snapshot run. -/
theorem claim_C9_witness :
    ∃ s ∈ [(⟨"rA", "pN", "L", 480, 600, 1, .pendente, ""⟩ : ScheduledRun),
           ⟨"rB", "pN", "L", 480, 600, 1, .pendente, ""⟩],
      (ScheduledRun.id ⟨"rB", "pN", "L", 600, 720, 1, .pendente, ""⟩) = s.id ∧
      (ScheduledRun.productId ⟨"rB", "pN", "L", 600, 720, 1, .pendente, ""⟩) =
        s.productId ∧
      (ScheduledRun.lineId ⟨"rB", "pN", "L", 600, 720, 1, .pendente, ""⟩) =
        s.lineId ∧
      (ScheduledRun.quantity ⟨"rB", "pN", "L", 600, 720, 1, .pendente, ""⟩) =
        s.quantity ∧
      (ScheduledRun.status ⟨"rB", "pN", "L", 600, 720, 1, .pendente, ""⟩) =
        s.status ∧
      (ScheduledRun.notes ⟨"rB", "pN", "L", 600, 720, 1, .pendente, ""⟩) =
        s.notes :=
  claim_C9_confirmed [⟨"pN", .normal, [⟨"e1", 120⟩]⟩]
    [⟨"L", ["e1"], [⟨1, 480, 1020, true⟩]⟩]
    [⟨"rA", "pN", "L", 480, 600, 1, .pendente, ""⟩,
     ⟨"rB", "pN", "L", 480, 600, 1, .pendente, ""⟩] 1 false 0
    ⟨"rB", "pN", "L", 600, 720, 1, .pendente, ""⟩ (by decide)

/-- C3 (amended): every placement of the optimizer belongs to a `Normal`
product (so a Top Seller run is never relocated), and the **drag-start guard**
(not `checkDropValidity`, as the counterexample shows) refuses to start a drag
of a Top Seller run regardless of its status or target. -/
theorem claim_C3_amended (products : List Product)
    (productionLines : List ProductionLine) (schedules : List ScheduledRun)
    (targetWeekday : Nat) (isToday : Bool) (nowMinutes : Int) :
    (∀ p ∈ (optimizeDaySchedules products productionLines schedules
        targetWeekday isToday nowMinutes).placements,
      (getProductById products p.productId).map (fun q => q.classification) =
        some .normal ∧
      ¬ (getProductById products p.productId).map (fun q => q.classification) =
        some .topSeller) ∧
    (∀ item : ScheduledRun,
      (getProductById products item.productId).map
        (fun q => q.classification) = some .topSeller →
      isDraggable products item = false) := by
  constructor
  · intro p hp
    have h := (optimizeDaySchedules_sound products productionLines schedules
      targetWeekday isToday nowMinutes).1 p hp
    obtain ⟨⟨line, hline, s, hsmem, hcls, hst, heq, -⟩, -⟩ := h
    have hpid : p.productId = s.productId := by rw [heq]
    rw [hpid, hcls]
    exact ⟨rfl, by simp⟩
  · intro item h
    simp [isDraggable, h]

/-- C3 witness: in the Top Seller scenario the relocated run's product is
Normal, and a drag of a Top Seller run never starts. -/
theorem claim_C3_witness :
    (getProductById [⟨"pN90", .normal, [⟨"e1", 90⟩]⟩,
        ⟨"pT", .topSeller, [⟨"e1", 60⟩]⟩]
      (ScheduledRun.productId ⟨"rC", "pN90", "L", 600, 690, 1, .pendente, ""⟩)).map
        (fun q => q.classification) = some .normal ∧
    isDraggable [⟨"pN90", .normal, [⟨"e1", 90⟩]⟩, ⟨"pT", .topSeller, [⟨"e1", 60⟩]⟩]
      ⟨"rTS", "pT", "L", 540, 600, 1, .pendente, ""⟩ = false := by
  have h := claim_C3_amended [⟨"pN90", .normal, [⟨"e1", 90⟩]⟩,
      ⟨"pT", .topSeller, [⟨"e1", 60⟩]⟩]
    [⟨"L", ["e1"], [⟨1, 480, 1020, true⟩]⟩]
    [⟨"rTS", "pT", "L", 540, 600, 1, .pendente, ""⟩,
     ⟨"rC", "pN90", "L", 510, 600, 1, .pendente, ""⟩] 1 false 0
  exact ⟨(h.1 ⟨"rC", "pN90", "L", 600, 690, 1, .pendente, ""⟩ (by decide)).1,
    h.2 ⟨"rTS", "pT", "L", 540, 600, 1, .pendente, ""⟩ (by decide)⟩

/-- C7 (amended): the optimizer's reported count equals the number of
placements it emits — every successfully placed movable run is counted, also
when it is re-placed at its current position; a second invocation therefore
reports the number of runs it places again, not 0, and (as the counterexample
shows) when some runs were left unoptimized it can even emit different
placements than the first. -/
theorem claim_C7_amended (products : List Product)
    (productionLines : List ProductionLine) (schedules : List ScheduledRun)
    (targetWeekday : Nat) (isToday : Bool) (nowMinutes : Int) :
    (optimizeDaySchedules products productionLines schedules targetWeekday
        isToday nowMinutes).optimizedCount =
      (optimizeDaySchedules products productionLines schedules targetWeekday
        isToday nowMinutes).placements.length :=
  (optimizeDaySchedules_sound products productionLines schedules targetWeekday
    isToday nowMinutes).2.2

/-- C7 counterexample: a fixed Top Seller `[0,60)`, a 200-minute window and
two movable 100-minute runs.  The first pass places the first run at
`[60,160)` and leaves the other unoptimized; applying that placement (the
store re-sorts by start time) and invoking the optimizer again reports 1
relocation — not 0 — and relocates the *other* run from 20 to 60, so the
second pass is not even a positional fixed point. -/
theorem claim_C7_counterexample :
    (optimizeDaySchedules [⟨"pd", .normal, [⟨"e1", 100⟩]⟩,
        ⟨"pT", .topSeller, [⟨"e1", 60⟩]⟩]
      [⟨"L2", ["e1"], [⟨1, 0, 200, true⟩]⟩]
      [⟨"rF", "pT", "L2", 0, 60, 1, .pendente, ""⟩,
       ⟨"rCC", "pd", "L2", 10, 110, 1, .pendente, ""⟩,
       ⟨"rU", "pd", "L2", 20, 120, 1, .pendente, ""⟩] 1 false 0).placements =
      [⟨"rCC", "pd", "L2", 60, 160, 1, .pendente, ""⟩] ∧
    (optimizeDaySchedules [⟨"pd", .normal, [⟨"e1", 100⟩]⟩,
        ⟨"pT", .topSeller, [⟨"e1", 60⟩]⟩]
      [⟨"L2", ["e1"], [⟨1, 0, 200, true⟩]⟩]
      [⟨"rF", "pT", "L2", 0, 60, 1, .pendente, ""⟩,
       ⟨"rCC", "pd", "L2", 10, 110, 1, .pendente, ""⟩,
       ⟨"rU", "pd", "L2", 20, 120, 1, .pendente, ""⟩] 1 false 0).optimizedCount = 1 ∧
    (optimizeDaySchedules [⟨"pd", .normal, [⟨"e1", 100⟩]⟩,
        ⟨"pT", .topSeller, [⟨"e1", 60⟩]⟩]
      [⟨"L2", ["e1"], [⟨1, 0, 200, true⟩]⟩]
      [⟨"rF", "pT", "L2", 0, 60, 1, .pendente, ""⟩,
       ⟨"rU", "pd", "L2", 20, 120, 1, .pendente, ""⟩,
       ⟨"rCC", "pd", "L2", 60, 160, 1, .pendente, ""⟩] 1 false 0).optimizedCount
      = 1 ∧
    (optimizeDaySchedules [⟨"pd", .normal, [⟨"e1", 100⟩]⟩,
        ⟨"pT", .topSeller, [⟨"e1", 60⟩]⟩]
      [⟨"L2", ["e1"], [⟨1, 0, 200, true⟩]⟩]
      [⟨"rF", "pT", "L2", 0, 60, 1, .pendente, ""⟩,
       ⟨"rU", "pd", "L2", 20, 120, 1, .pendente, ""⟩,
       ⟨"rCC", "pd", "L2", 60, 160, 1, .pendente, ""⟩] 1 false 0).placements =
      [⟨"rU", "pd", "L2", 60, 160, 1, .pendente, ""⟩] := by
  refine ⟨by decide, by decide, by decide, by decide⟩
